import Mathlib

/-!
Verification of the boot bring-up core of the rux kernel.

Sources embedded here:
* `src/kernel/src/arch/x86_64/segmentation/mod.rs` — segment selector and
  segment descriptor bit encodings (`SegmentSelector`, `SegmentDescriptor`).
* `src/kernel/src/arch/x86_64/init/mod.rs` — the boot memory-topology
  builder (`InitInfo`, `FreeRegionsIterator`, `bootstrap_archinfo`, `kinit`).

Machine integers are embedded as `Nat`, reduced modulo `2 ^ w` exactly where
the Rust code uses a fixed-width type (`u16`, `u32`, `u64`).  The memory-region
primitives (`MemoryRegion`, `skip_up`) live in the repository's `common` crate,
which is not part of the given sources; they are modelled from the
specification, as is the multiboot parser's output format and the external
paging/segmentation/interrupt initializers called by `kinit`.  Fallible code
(array indexing with Rust's bounds check, `assert!`, `unwrap`) is embedded as
`Except BootError`.
-/

namespace Rux

namespace SegmentSelector

/-- Source constant `RPL_0 = 0b00` (requestor privilege level 0). -/
def RPL_0 : Nat := 0b00

/-- Source constant `RPL_1 = 0b01`. -/
def RPL_1 : Nat := 0b01

/-- Source constant `RPL_2 = 0b10`. -/
def RPL_2 : Nat := 0b10

/-- Source constant `RPL_3 = 0b11` (requestor privilege level 3). -/
def RPL_3 : Nat := 0b11

/-- Source constant `TI_GDT = 0 << 3` (table indicator: GDT). -/
def TI_GDT : Nat := 0 <<< 3

/-- Source constant `TI_LDT = 1 << 3` (table indicator: LDT), as written in
the source: the constant sits at bit 3. -/
def TI_LDT : Nat := 1 <<< 3

/-- Source `SegmentSelector::new(index) = SegmentSelector { bits: index << 3 }`
on the 16-bit field `bits`. -/
def new (index : Nat) : Nat := (index <<< 3) % 2 ^ 16

/-- Source `SegmentSelector::from_raw(bits)` — a direct reinterpretation of a
16-bit value. -/
def from_raw (bits : Nat) : Nat := bits % 2 ^ 16

end SegmentSelector

namespace SegmentDescriptor

/-- Source constant `DESC_S = 1 << (32+12)` (descriptor type bit). -/
def DESC_S : Nat := 1 <<< (32 + 12)

/-- Source constant `DESC_DPL0 = 0b00 << (32+13)`. -/
def DESC_DPL0 : Nat := 0b00 <<< (32 + 13)

/-- Source constant `DESC_DPL1 = 0b01 << (32+13)`. -/
def DESC_DPL1 : Nat := 0b01 <<< (32 + 13)

/-- Source constant `DESC_DPL2 = 0b10 << (32+13)`. -/
def DESC_DPL2 : Nat := 0b10 <<< (32 + 13)

/-- Source constant `DESC_DPL3 = 0b11 << (32+13)`. -/
def DESC_DPL3 : Nat := 0b11 <<< (32 + 13)

/-- Source constant `DESC_P = 1 << (32+15)` (present bit). -/
def DESC_P : Nat := 1 <<< (32 + 15)

/-- Source constant `DESC_AVL = 1 << (32+20)` (available to software). -/
def DESC_AVL : Nat := 1 <<< (32 + 20)

/-- Source constant `DESC_L = 1 << (32+21)` (64-bit code segment). -/
def DESC_L : Nat := 1 <<< (32 + 21)

/-- Source constant `DESC_DB = 1 << (32+22)` (default operation size). -/
def DESC_DB : Nat := 1 <<< (32 + 22)

/-- Source constant `DESC_G = 1 << (32+23)` (granularity). -/
def DESC_G : Nat := 1 <<< (32 + 23)

/-- Source constant `TYPE_SYS_LDT = 0b0010 << (32+8)`. -/
def TYPE_SYS_LDT : Nat := 0b0010 <<< (32 + 8)

/-- Source constant `TYPE_SYS_TSS_AVAILABLE = 0b1001 << (32+8)`. -/
def TYPE_SYS_TSS_AVAILABLE : Nat := 0b1001 <<< (32 + 8)

/-- Source constant `TYPE_SYS_TSS_BUSY = 0b1011 << (32+8)`. -/
def TYPE_SYS_TSS_BUSY : Nat := 0b1011 <<< (32 + 8)

/-- Source constant `TYPE_SYS_CALL_GATE = 0b1100 << (32+8)`. -/
def TYPE_SYS_CALL_GATE : Nat := 0b1100 <<< (32 + 8)

/-- Source constant `TYPE_SYS_INTERRUPT_GATE = 0b1110 << (32+8)`. -/
def TYPE_SYS_INTERRUPT_GATE : Nat := 0b1110 <<< (32 + 8)

/-- Source constant `TYPE_SYS_TRAP_GATE = 0b1111 << (32+8)`. -/
def TYPE_SYS_TRAP_GATE : Nat := 0b1111 <<< (32 + 8)

/-- Source constant `TYPE_D_RW = 0b0010 << (32+8)` (data read/write). -/
def TYPE_D_RW : Nat := 0b0010 <<< (32 + 8)

/-- Source constant `TYPE_C_ER = 0b1010 << (32+8)` (code execute/read). -/
def TYPE_C_ER : Nat := 0b1010 <<< (32 + 8)

/-- Source constant `TYPE_C_ERCA = 0b1111 << (32+8)` (code execute/read,
conforming, accessed — the all-ones type nibble). -/
def TYPE_C_ERCA : Nat := 0b1111 <<< (32 + 8)

/-- Union of every flag-bit position defined by the source `bitflags` block:
the 4-bit type nibble at bits 40–43, S, the two DPL bits, P, AVL, L, DB, G.
This is the set of bits a caller-supplied flag set may occupy. -/
def flagMask : Nat :=
  DESC_S ||| DESC_DPL0 ||| DESC_DPL1 ||| DESC_DPL2 ||| DESC_DPL3 ||| DESC_P |||
  DESC_AVL ||| DESC_L ||| DESC_DB ||| DESC_G |||
  TYPE_SYS_LDT ||| TYPE_SYS_TSS_AVAILABLE ||| TYPE_SYS_TSS_BUSY |||
  TYPE_SYS_CALL_GATE ||| TYPE_SYS_INTERRUPT_GATE ||| TYPE_SYS_TRAP_GATE |||
  TYPE_D_RW ||| TYPE_C_ER ||| TYPE_C_ERCA

/-- Source `SegmentDescriptor::new(base: u32, limit: u32)`:
`base_low = base & 0xffffff`, `base_high = (base >> 24) & 0xff`,
`limit_low = limit & 0xffff`, `limit_high = (limit & (0b1111 << 16)) >> 16`,
packed as `limit_low | base_low << 16 | limit_high << (32+16) |
base_high << (32+24)`. -/
def new (base limit : Nat) : Nat :=
  let base64 := base % 2 ^ 32
  let limit64 := limit % 2 ^ 32
  let base_low := base64 &&& 0xffffff
  let base_high := (base64 >>> 24) &&& 0xff
  let limit_low := limit64 &&& 0xffff
  let limit_high := (limit64 &&& (0b1111 <<< 16)) >>> 16
  limit_low ||| (base_low <<< 16) ||| (limit_high <<< (32 + 16)) |||
    (base_high <<< (32 + 24))

/-- Source `SegmentDescriptor::from_raw(raw: u64)` — a direct
reinterpretation of a 64-bit value. -/
def from_raw (raw : Nat) : Nat := raw % 2 ^ 64

/-- Modelled from the spec: the decoder for the base field of a descriptor is
not written out in src/; §3 and §4.3 fix the layout (24-bit low half at bits
16–39, 8-bit high half at bits 56–63), and decode is its inverse extraction. -/
def decode_base (bits : Nat) : Nat :=
  ((bits >>> 16) &&& 0xffffff) ||| (((bits >>> 56) &&& 0xff) <<< 24)

/-- Modelled from the spec: inverse extraction of the 20-bit limit (16-bit low
half at bits 0–15, 4-bit high half at bits 48–51). -/
def decode_limit (bits : Nat) : Nat :=
  (bits &&& 0xffff) ||| (((bits >>> 48) &&& 0xf) <<< 16)

/-- Modelled from the spec: inverse extraction of the flag bits — the
descriptor restricted to the flag-bit positions of `flagMask`. -/
def decode_flags (bits : Nat) : Nat := bits &&& flagMask

end SegmentDescriptor

/-- Modelled from the spec: `MemoryRegion { base, length }` from the `common`
crate (not under src/), a half-open extent of `length` physical addresses
starting at `base` (§3). -/
structure MemoryRegion where
  base : Nat
  length : Nat
deriving DecidableEq, Repr

namespace MemoryRegion

/-- Modelled from the spec: derived `end = base + length - 1` (§3); only
meaningful when `length > 0`. -/
def endAddr (r : MemoryRegion) : Nat := r.base + r.length - 1

/-- Modelled from the spec: `skip_up` (subtract-from-bottom, §4.1).  If the
exclusion covers some prefix of `self` — it starts at or before `self.base`
and reaches `self.base` — `self` is advanced so its new base is
`exclusion.end + 1` and its length is shrunk by the amount of overlap
(saturating at zero when the exclusion extends past `self.end`), returning
`true`; otherwise `self` is unchanged and the result is `false`.  The Rust
method mutates `self` and returns `bool`; here it returns both. -/
def skip_up (self exclusion : MemoryRegion) : Bool × MemoryRegion :=
  if exclusion.base ≤ self.base ∧ self.base ≤ exclusion.endAddr then
    (true, ⟨exclusion.endAddr + 1, self.length - (exclusion.endAddr + 1 - self.base)⟩)
  else
    (false, self)

/-- Address membership: `a` lies in the extent of `r`. -/
def contains (r : MemoryRegion) (a : Nat) : Prop := r.base ≤ a ∧ a < r.base + r.length

instance (r : MemoryRegion) (a : Nat) : Decidable (r.contains a) :=
  inferInstanceAs (Decidable (r.base ≤ a ∧ a < r.base + r.length))

/-- Two regions share no address: one is empty or one lies entirely below the
other. -/
def disjointWith (r s : MemoryRegion) : Prop :=
  r.length = 0 ∨ s.length = 0 ∨ r.base + r.length ≤ s.base ∨ s.base + s.length ≤ r.base

instance (r s : MemoryRegion) : Decidable (r.disjointWith s) :=
  inferInstanceAs (Decidable (_ ∨ _ ∨ _ ∨ _))

end MemoryRegion

/-- Modelled from the spec: the multiboot parser (external collaborator)
classifies each memory-map entry as usable RAM or other (§6). -/
inductive MemoryType where
  | RAM
  | other
deriving DecidableEq, Repr

/-- Modelled from the spec: a firmware memory-map entry
`{base: 64-bit, length: 64-bit, type}` as produced by the external multiboot
parser (§6). -/
structure MapEntry where
  base : Nat
  length : Nat
  memory_type : MemoryType
deriving DecidableEq, Repr

/-- The region an entry denotes: the source's
`MemoryRegion::new(area.base_address(), area.length() as usize)`. -/
def MapEntry.region (e : MapEntry) : MemoryRegion := ⟨e.base, e.length⟩

/-- The distinct fatal halt conditions of the boot phase, one per panic site
in `init/mod.rs`: the bounds-checked store in `push_free_region`, the
`assert!` on the rinit subtraction, and the `alloc_region.unwrap()`. -/
inductive BootError where
  | capacityExceeded
  | rinitNotAdjacent
  | noAllocRegion
deriving DecidableEq, Repr

/-- Source `struct InitInfo`: a 16-slot optional-region array with a manual
count, plus the rinit and kernel regions. -/
structure InitInfo where
  free_regions_size : Nat
  free_regions : List (Option MemoryRegion)
  rinit_region : MemoryRegion
  kernel_region : MemoryRegion
deriving DecidableEq, Repr

/-- Source `FreeRegionsIterator::next`, unrolled: yields the values of
leading `Some` slots and stops at the first `None` slot (or at the end of the
array). -/
def free_regions_list : List (Option MemoryRegion) → List MemoryRegion
  | [] => []
  | none :: _ => []
  | some r :: rest => r :: free_regions_list rest

namespace InitInfo

/-- Source `InitInfo::free_regions()`: the sequence the iterator yields.
Named with an `_iter` suffix because the Lean structure field already takes
the plain name. -/
def free_regions_iter (info : InitInfo) : List MemoryRegion :=
  free_regions_list info.free_regions

/-- Source `InitInfo::new`: empty slot array, zero count. -/
def new (kernel_region rinit_region : MemoryRegion) : InitInfo :=
  { free_regions_size := 0
    free_regions := List.replicate 16 none
    kernel_region := kernel_region
    rinit_region := rinit_region }

/-- Source `InitInfo::push_free_region`: stores at index `free_regions_size`
and increments the count.  The store is Rust's bounds-checked indexing into
the 16-element array; an out-of-range index panics, embedded as the
distinguishable `capacityExceeded` failure. -/
def push_free_region (info : InitInfo) (region : MemoryRegion) :
    Except BootError InitInfo :=
  if info.free_regions_size < 16 then
    .ok { info with
            free_regions := info.free_regions.set info.free_regions_size (some region)
            free_regions_size := info.free_regions_size + 1 }
  else
    .error BootError.capacityExceeded

end InitInfo

/-- The body of the `for area in bootinfo.memory_regions()` loop of
`bootstrap_archinfo`: skip non-RAM entries; if the kernel region subtracts
from the bottom of the entry, the rinit region must subtract next
(`assert!`, embedded as `rinitNotAdjacent`) and the remainder becomes the
allocation arena; otherwise push the entry unchanged as a free region. -/
def processEntry (st : InitInfo × Option MemoryRegion) (area : MapEntry) :
    Except BootError (InitInfo × Option MemoryRegion) :=
  if area.memory_type = MemoryType.RAM then
    match MemoryRegion.skip_up area.region st.1.kernel_region with
    | (true, cur') =>
      match MemoryRegion.skip_up cur' st.1.rinit_region with
      | (true, cur'') => .ok (st.1, some cur'')
      | (false, _) => .error BootError.rinitNotAdjacent
    | (false, cur') =>
      match st.1.push_free_region cur' with
      | .ok info => .ok (info, st.2)
      | .error e => .error e
  else
    .ok st

/-- The loop of `bootstrap_archinfo`, iterated over the memory map. -/
def processList (st : InitInfo × Option MemoryRegion) :
    List MapEntry → Except BootError (InitInfo × Option MemoryRegion)
  | [] => .ok st
  | area :: rest =>
    match processEntry st area with
    | .ok st' => processList st' rest
    | .error e => .error e

/-- Source `bootstrap_archinfo`.  The multiboot parser, the linker-provided
kernel bounds and the first module descriptor are external; the kernel
region, rinit region and parsed memory map are taken as parameters.  The
final `alloc_region.unwrap()` is embedded as the `noAllocRegion` failure. -/
def bootstrap_archinfo (kernel_region rinit_region : MemoryRegion)
    (memory_map : List MapEntry) : Except BootError (InitInfo × MemoryRegion) :=
  match processList (InitInfo.new kernel_region rinit_region, none) memory_map with
  | .ok (archinfo, some alloc_region) => .ok (archinfo, alloc_region)
  | .ok (_, none) => .error BootError.noAllocRegion
  | .error e => .error e

/-- The regions `bootstrap_archinfo` pushes as free while scanning a map:
RAM entries on which the kernel-region subtraction reports no overlap. -/
def freeEligibles (K : MemoryRegion) : List MapEntry → List MemoryRegion
  | [] => []
  | e :: rest =>
    if e.memory_type = MemoryType.RAM ∧ (MemoryRegion.skip_up e.region K).1 = false
    then e.region :: freeEligibles K rest
    else freeEligibles K rest

/-- The allocation-arena accumulator of the `bootstrap_archinfo` loop: each
RAM entry on which the kernel-region subtraction succeeds overwrites the
arena with the remainder after also subtracting the rinit region. -/
def arenaFold (K R : MemoryRegion) (a : Option MemoryRegion) :
    List MapEntry → Option MemoryRegion
  | [] => a
  | e :: rest =>
    if e.memory_type = MemoryType.RAM ∧ (MemoryRegion.skip_up e.region K).1 = true
    then arenaFold K R (some (MemoryRegion.skip_up (MemoryRegion.skip_up e.region K).2 R).2) rest
    else arenaFold K R a rest

/-- Slot-array shape after `rs` pushes: the populated slots are exactly the
pushed regions, in order, followed by empty slots up to capacity 16. -/
def Populated (info : InitInfo) (rs : List MemoryRegion) : Prop :=
  info.free_regions = rs.map some ++ List.replicate (16 - rs.length) none ∧
  info.free_regions_size = rs.length ∧ rs.length ≤ 16

/-- A RAM map entry that contains the kernel image as an exact bottom-aligned
span with the rinit image immediately above it: the shape the builder's
success path assumes (§4.2). -/
def exactCover (K R : MemoryRegion) (e : MapEntry) : Prop :=
  e.base = K.base ∧ R.base = K.base + K.length ∧ K.length + R.length ≤ e.length

instance (K R : MemoryRegion) (e : MapEntry) : Decidable (exactCover K R e) :=
  inferInstanceAs (Decidable (_ ∧ _ ∧ _))

/-- Iterated `push_free_region`, for describing an `InitInfo` built by `new`
followed by a sequence of pushes. -/
def pushAll (info : InitInfo) : List MemoryRegion → Except BootError InitInfo
  | [] => .ok info
  | r :: rest =>
    match info.push_free_region r with
    | .ok info' => pushAll info' rest
    | .error e => .error e

/-- The externally observable steps of the bring-up sequencer `kinit`, in the
order the source performs them. -/
inductive BootEvent where
  | topologyBuilt
  | pagingInit
  | segmentationInit
  | interruptInit
  | arenaPushed
  | handedOff
deriving DecidableEq, Repr

/-- Source `kinit`: build the topology, initialize paging (which consumes
part of the arena, modelled by the external `paging_consume`), then
segmentation, then interrupts, push the shrunk arena as an ordinary free
region, and hand the finalized `InitInfo` to `kmain` by value.  The returned
pair is the event trace together with the handed-off value; there is no
continuation after the hand-off.  Paging, segmentation, interrupt
initialization and `kmain` are external collaborators modelled from the
spec. -/
def kinit (kernel_region rinit_region : MemoryRegion) (memory_map : List MapEntry)
    (paging_consume : MemoryRegion → MemoryRegion) :
    Except BootError (List BootEvent × InitInfo) :=
  match bootstrap_archinfo kernel_region rinit_region memory_map with
  | .error e => .error e
  | .ok (archinfo, alloc_region) =>
    let log1 := [BootEvent.topologyBuilt]
    let alloc_region := paging_consume alloc_region
    let log2 := log1 ++ [BootEvent.pagingInit]
    let log3 := log2 ++ [BootEvent.segmentationInit]
    let log4 := log3 ++ [BootEvent.interruptInit]
    match archinfo.push_free_region alloc_region with
    | .error e => .error e
    | .ok archinfo =>
      .ok (log4 ++ [BootEvent.arenaPushed, BootEvent.handedOff], archinfo)

/-! ### Bitwise helper lemmas -/

theorem land_mod_two_pow (a b n : Nat) :
    (a &&& b) % 2 ^ n = (a % 2 ^ n) &&& (b % 2 ^ n) := by
  apply Nat.eq_of_testBit_eq
  intro i
  simp only [Nat.testBit_mod_two_pow, Nat.testBit_and]
  by_cases h : i < n <;> simp [h]

theorem land_shiftRight (a b n : Nat) :
    (a &&& b) >>> n = (a >>> n) &&& (b >>> n) := by
  apply Nat.eq_of_testBit_eq
  intro i
  simp [Nat.testBit_shiftRight, Nat.testBit_and]

theorem lor_shiftRight (a b n : Nat) :
    (a ||| b) >>> n = (a >>> n) ||| (b >>> n) := by
  apply Nat.eq_of_testBit_eq
  intro i
  simp [Nat.testBit_shiftRight, Nat.testBit_or]

theorem lor_land_distrib (a b c : Nat) :
    (a ||| b) &&& c = (a &&& c) ||| (b &&& c) := by
  apply Nat.eq_of_testBit_eq
  intro i
  simp [Nat.testBit_or, Nat.testBit_and, Bool.and_or_distrib_right]

theorem land_two_pow_sub_one (a n : Nat) : a &&& (2 ^ n - 1) = a % 2 ^ n := by
  apply Nat.eq_of_testBit_eq
  intro i
  simp only [Nat.testBit_mod_two_pow, Nat.testBit_and]
  by_cases h : i < n <;>
    simp [h, Nat.testBit_two_pow_sub_one]

/-! ### Segment descriptor round-trip (C1) -/

/-- Key invariance: OR-ing any flag set (bits inside `flagMask`) into a
64-bit word does not disturb the base and limit field extractions, and the
flag extraction recovers exactly the word's flag bits OR the added set. -/
theorem decode_lor_flags (L f : Nat) (h : f &&& SegmentDescriptor.flagMask = f) :
    SegmentDescriptor.decode_base (L ||| f) = SegmentDescriptor.decode_base L ∧
    SegmentDescriptor.decode_limit (L ||| f) = SegmentDescriptor.decode_limit L ∧
    SegmentDescriptor.decode_flags (L ||| f) =
      (L &&& SegmentDescriptor.flagMask) ||| f := by
  have h16 : f &&& 0xffff = 0 := by
    conv_lhs => rw [← h]
    rw [Nat.land_assoc]
    rw [show SegmentDescriptor.flagMask &&& 0xffff = 0 from by decide, Nat.and_zero]
  have hs16 : (f >>> 16) &&& 0xffffff = 0 := by
    conv_lhs => rw [← h]
    rw [land_shiftRight, Nat.land_assoc]
    rw [show SegmentDescriptor.flagMask >>> 16 &&& 0xffffff = 0 from by decide,
      Nat.and_zero]
  have hs48 : (f >>> 48) &&& 0xf = 0 := by
    conv_lhs => rw [← h]
    rw [land_shiftRight, Nat.land_assoc]
    rw [show SegmentDescriptor.flagMask >>> 48 &&& 0xf = 0 from by decide,
      Nat.and_zero]
  have hs56 : (f >>> 56) &&& 0xff = 0 := by
    conv_lhs => rw [← h]
    rw [land_shiftRight, Nat.land_assoc]
    rw [show SegmentDescriptor.flagMask >>> 56 &&& 0xff = 0 from by decide,
      Nat.and_zero]
  refine ⟨?_, ?_, ?_⟩
  · show ((L ||| f) >>> 16 &&& 0xffffff) ||| (((L ||| f) >>> 56 &&& 0xff) <<< 24) = _
    rw [lor_shiftRight, lor_shiftRight, lor_land_distrib, lor_land_distrib,
      hs16, hs56, Nat.or_zero, Nat.or_zero]
    rfl
  · show ((L ||| f) &&& 0xffff) ||| (((L ||| f) >>> 48 &&& 0xf) <<< 16) = _
    rw [lor_shiftRight, lor_land_distrib, lor_land_distrib, h16, hs48,
      Nat.or_zero, Nat.or_zero]
    rfl
  · show (L ||| f) &&& SegmentDescriptor.flagMask = _
    rw [lor_land_distrib, h]

/-- C1.  For every base value in {0x00000000, 0x00FFFFFF, 0xFFFFFFFF}, every
limit value in {0x00000, 0x0FFFF, 0xFFFFF}, and every set of flag bits
(a 64-bit value occupying only flag-bit positions), decoding the descriptor
`SegmentDescriptor::new(base, limit)` with the flags OR'd in reproduces the
base, the limit, and every flag bit exactly. -/
theorem descriptor_roundtrip (base limit flags : Nat)
    (hb : base = 0x00000000 ∨ base = 0x00FFFFFF ∨ base = 0xFFFFFFFF)
    (hl : limit = 0x00000 ∨ limit = 0x0FFFF ∨ limit = 0xFFFFF)
    (hf : flags &&& SegmentDescriptor.flagMask = flags) :
    SegmentDescriptor.decode_base (SegmentDescriptor.new base limit ||| flags) = base ∧
    SegmentDescriptor.decode_limit (SegmentDescriptor.new base limit ||| flags) = limit ∧
    SegmentDescriptor.decode_flags (SegmentDescriptor.new base limit ||| flags) = flags := by
  obtain ⟨e1, e2, e3⟩ := decode_lor_flags (SegmentDescriptor.new base limit) flags hf
  rw [e1, e2, e3]
  rcases hb with rfl | rfl | rfl <;> rcases hl with rfl | rfl | rfl <;>
    refine ⟨by decide, by decide, ?_⟩ <;>
    · rw [show SegmentDescriptor.new _ _ &&& SegmentDescriptor.flagMask = 0 from by decide,
        Nat.zero_or]

/-- C1 witness: the round trip at base `0x00FFFFFF`, limit `0x0FFFF`, with a
present, DPL-3, code execute/read flag set. -/
theorem descriptor_roundtrip_witness :
    SegmentDescriptor.decode_base
      (SegmentDescriptor.new 0x00FFFFFF 0x0FFFF |||
        (SegmentDescriptor.DESC_P ||| SegmentDescriptor.DESC_S |||
         SegmentDescriptor.DESC_DPL3 ||| SegmentDescriptor.TYPE_C_ER)) = 0x00FFFFFF ∧
    SegmentDescriptor.decode_limit
      (SegmentDescriptor.new 0x00FFFFFF 0x0FFFF |||
        (SegmentDescriptor.DESC_P ||| SegmentDescriptor.DESC_S |||
         SegmentDescriptor.DESC_DPL3 ||| SegmentDescriptor.TYPE_C_ER)) = 0x0FFFF ∧
    SegmentDescriptor.decode_flags
      (SegmentDescriptor.new 0x00FFFFFF 0x0FFFF |||
        (SegmentDescriptor.DESC_P ||| SegmentDescriptor.DESC_S |||
         SegmentDescriptor.DESC_DPL3 ||| SegmentDescriptor.TYPE_C_ER)) =
      (SegmentDescriptor.DESC_P ||| SegmentDescriptor.DESC_S |||
       SegmentDescriptor.DESC_DPL3 ||| SegmentDescriptor.TYPE_C_ER) :=
  descriptor_roundtrip 0x00FFFFFF 0x0FFFF _
    (Or.inr (Or.inl rfl)) (Or.inr (Or.inl rfl)) (by decide)

/-! ### Segment selector layout (C2, C9) -/

/-- C2 counterexample: the claim places the descriptor-table index in bits
[2:15], but `SegmentSelector::new(5)` (bits `0x28`) decoded through a
bits-[2:15] field yields 10, not 5 — the source shifts the index by 3, not
2. -/
theorem selector_layout_counterexample :
    ¬ ((SegmentSelector.new 5 >>> 2) &&& 0x3fff = 5) := by decide

/-- C2 (amended).  A `SegmentSelector`'s 16 bits hold the requested
privilege level in bits [0:1] and the descriptor-table index in bits [3:15];
`SegmentSelector::new(index)` shifts the index left by 3, so it packs
`index mod 2^13` into bits [3:15] and leaves bits [0:2] — the privilege bits
and the hardware table-indicator position (bit 2) — zero, for every index.
The source's `TI_LDT` constant is written `1 << 3`, which sits at bit 3,
overlapping the packed index's lowest bit. -/
theorem selector_layout_packing (index : Nat) :
    SegmentSelector.new index &&& 0b111 = 0 ∧
    SegmentSelector.new index >>> 3 = index % 2 ^ 13 ∧
    SegmentSelector.TI_LDT = 1 <<< 3 := by
  refine ⟨?_, ?_, rfl⟩
  · rw [show (0b111 : Nat) = 2 ^ 3 - 1 from rfl, land_two_pow_sub_one,
      SegmentSelector.new, Nat.shiftLeft_eq]
    omega
  · rw [SegmentSelector.new, Nat.shiftRight_eq_div_pow, Nat.shiftLeft_eq]
    norm_num
    omega

/-- C9: evaluation of the selector encodings at the claimed inputs.
`SegmentSelector::new(5)` is `0x28`: index field (bits [3:15]) 5, privilege
bits 0, hardware table-indicator bit (bit 2) 0 — but the source's `TI_LDT`
flag (defined `1 << 3`) reads as set on it, because the constant collides
with the index field.  `SegmentSelector::from_raw(0x2B)` decodes to index 5
and privilege 3. -/
theorem selector_encoding_eval :
    SegmentSelector.new 5 = 0x28 ∧
    SegmentSelector.new 5 >>> 3 = 5 ∧
    SegmentSelector.new 5 &&& 0b11 = 0 ∧
    SegmentSelector.new 5 &&& (1 <<< 2) = 0 ∧
    SegmentSelector.new 5 &&& SegmentSelector.TI_LDT ≠ 0 ∧
    SegmentSelector.from_raw 0x2B >>> 3 = 5 ∧
    SegmentSelector.from_raw 0x2B &&& 0b11 = SegmentSelector.RPL_3 := by
  decide

/-! ### Region subtraction (C7) -/

theorem skip_up_of_false {x K : MemoryRegion}
    (h : (MemoryRegion.skip_up x K).1 = false) :
    MemoryRegion.skip_up x K = (false, x) := by
  by_cases hc : K.base ≤ x.base ∧ x.base ≤ K.endAddr
  · simp [MemoryRegion.skip_up, hc] at h
  · simp [MemoryRegion.skip_up, hc]

theorem pair_of_fst_true {α : Type} {p : Bool × α} (h : p.1 = true) :
    p = (true, p.2) := by
  rw [← h]

/-- C7.  The subtract-from-bottom contract: an exclusion that does not reach
the bottom of `self` leaves it unchanged and returns `false`; an exclusion
covering exactly `[self.base, self.base + k)` with `k < self.length` returns
`true` and yields `{base as exclusion.end + 1 = self.base + k, length
self.length - k}`; an exclusion covering all of `self` or more returns
`true` with a zero-length remainder. -/
theorem skip_up_contract (R X : MemoryRegion) :
    (¬ (X.base ≤ R.base ∧ R.base ≤ X.endAddr) →
      MemoryRegion.skip_up R X = (false, R)) ∧
    (∀ k, 0 < k → k < R.length → X = ⟨R.base, k⟩ →
      MemoryRegion.skip_up R X = (true, ⟨R.base + k, R.length - k⟩) ∧
      R.base + k = X.endAddr + 1) ∧
    (0 < R.length → X.base ≤ R.base → R.endAddr ≤ X.endAddr →
      (MemoryRegion.skip_up R X).1 = true ∧
      (MemoryRegion.skip_up R X).2.length = 0) := by
  refine ⟨?_, ?_, ?_⟩
  · intro h
    rw [MemoryRegion.skip_up, if_neg h]
  · rintro k hk hklt rfl
    rw [MemoryRegion.skip_up, if_pos (by simp [MemoryRegion.endAddr]; omega)]
    simp [MemoryRegion.endAddr]
    omega
  · intro hR hXb hXe
    have hcond : X.base ≤ R.base ∧ R.base ≤ X.endAddr := by
      unfold MemoryRegion.endAddr at hXe ⊢
      omega
    rw [MemoryRegion.skip_up, if_pos hcond]
    refine ⟨rfl, ?_⟩
    simp [MemoryRegion.endAddr] at hXe ⊢
    omega

/-- C7 witness: the three contract cases at concrete regions — a fully-below
exclusion, an exact bottom-aligned prefix of 20 addresses, and an exclusion
covering the whole region and more. -/
theorem skip_up_contract_witness :
    MemoryRegion.skip_up ⟨100, 50⟩ ⟨10, 20⟩ = (false, ⟨100, 50⟩) ∧
    MemoryRegion.skip_up ⟨100, 50⟩ ⟨100, 20⟩ = (true, ⟨120, 30⟩) ∧
    (MemoryRegion.skip_up ⟨100, 50⟩ ⟨50, 200⟩).1 = true ∧
    (MemoryRegion.skip_up ⟨100, 50⟩ ⟨50, 200⟩).2.length = 0 :=
  ⟨(skip_up_contract ⟨100, 50⟩ ⟨10, 20⟩).1 (by decide),
   ((skip_up_contract ⟨100, 50⟩ ⟨100, 20⟩).2.1 20 (by decide) (by decide) rfl).1,
   ((skip_up_contract ⟨100, 50⟩ ⟨50, 200⟩).2.2 (by decide) (by decide) (by decide)).1,
   ((skip_up_contract ⟨100, 50⟩ ⟨50, 200⟩).2.2 (by decide) (by decide) (by decide)).2⟩

/-! ### Free-region slot array -/

theorem Populated_new (K R : MemoryRegion) : Populated (InitInfo.new K R) [] :=
  ⟨rfl, rfl, by decide⟩

theorem set_append_len {α : Type} (l₁ l₂ : List α) (v : α) :
    (l₁ ++ l₂).set l₁.length v = l₁ ++ l₂.set 0 v := by
  induction l₁ with
  | nil => rfl
  | cons a t ih => simp [List.set, ih]

theorem push_ok {info : InitInfo} {rs : List MemoryRegion} (r : MemoryRegion)
    (h : Populated info rs) (hlt : rs.length < 16) :
    ∃ info', info.push_free_region r = .ok info' ∧ Populated info' (rs ++ [r]) ∧
      info'.kernel_region = info.kernel_region ∧
      info'.rinit_region = info.rinit_region := by
  obtain ⟨hf, hs, hle⟩ := h
  rw [InitInfo.push_free_region, if_pos (by omega)]
  refine ⟨_, rfl, ⟨?_, by simp [hs], by simp; omega⟩, rfl, rfl⟩
  show (info.free_regions.set info.free_regions_size (some r)) = _
  rw [hf, hs]
  have hlen : rs.length = (rs.map some).length := by simp
  have hrep : List.replicate (16 - rs.length) (none : Option MemoryRegion) =
      none :: List.replicate (16 - (rs.length + 1)) none := by
    rw [show 16 - rs.length = (16 - (rs.length + 1)) + 1 from by omega,
      List.replicate_succ]
  rw [hlen, set_append_len, ← hlen, hrep]
  simp

theorem push_full {info : InitInfo} (r : MemoryRegion)
    (h : info.free_regions_size = 16) :
    info.push_free_region r = .error BootError.capacityExceeded := by
  rw [InitInfo.push_free_region, if_neg (by omega)]

theorem free_regions_list_shape (rs : List MemoryRegion) (k : Nat) :
    free_regions_list (rs.map some ++ List.replicate k none) = rs := by
  induction rs with
  | nil =>
    cases k with
    | zero => rfl
    | succ n => rw [List.replicate_succ]; rfl
  | cons a t ih => simpa [free_regions_list] using ih

theorem free_regions_iter_of_Populated {info : InitInfo} {rs : List MemoryRegion}
    (h : Populated info rs) : info.free_regions_iter = rs := by
  rw [InitInfo.free_regions_iter, h.1, free_regions_list_shape]

/-! ### Loop-body case analysis -/

theorem processEntry_not_ram {st : InitInfo × Option MemoryRegion} {e : MapEntry}
    (h : ¬ e.memory_type = MemoryType.RAM) : processEntry st e = .ok st := by
  rw [processEntry, if_neg h]

theorem processEntry_free {st : InitInfo × Option MemoryRegion} {e : MapEntry}
    (hram : e.memory_type = MemoryType.RAM)
    (hskip : (MemoryRegion.skip_up e.region st.1.kernel_region).1 = false) :
    processEntry st e =
      match st.1.push_free_region e.region with
      | .ok info => .ok (info, st.2)
      | .error err => .error err := by
  rw [processEntry, if_pos hram, skip_up_of_false hskip]

theorem processEntry_arena {st : InitInfo × Option MemoryRegion} {e : MapEntry}
    (hram : e.memory_type = MemoryType.RAM)
    (hskip : (MemoryRegion.skip_up e.region st.1.kernel_region).1 = true) :
    processEntry st e =
      match MemoryRegion.skip_up (MemoryRegion.skip_up e.region st.1.kernel_region).2
          st.1.rinit_region with
      | (true, cur'') => .ok (st.1, some cur'')
      | (false, _) => .error BootError.rinitNotAdjacent := by
  rw [processEntry, if_pos hram, pair_of_fst_true hskip]

/-! ### Loop characterization -/

theorem processList_ok (K R : MemoryRegion) (l : List MapEntry) :
    ∀ (info : InitInfo) (a : Option MemoryRegion) (rs : List MemoryRegion),
      info.kernel_region = K → info.rinit_region = R → Populated info rs →
      rs.length + (freeEligibles K l).length ≤ 16 →
      (∀ e ∈ l, e.memory_type = MemoryType.RAM →
        (MemoryRegion.skip_up e.region K).1 = true →
        (MemoryRegion.skip_up (MemoryRegion.skip_up e.region K).2 R).1 = true) →
      ∃ info', processList (info, a) l = .ok (info', arenaFold K R a l) ∧
        Populated info' (rs ++ freeEligibles K l) ∧
        info'.kernel_region = K ∧ info'.rinit_region = R := by
  induction l with
  | nil =>
    intro info a rs hK hR hpop _ _
    exact ⟨info, rfl, by simpa [freeEligibles] using hpop, hK, hR⟩
  | cons e rest ih =>
    intro info a rs hK hR hpop hcap hrinit
    by_cases hram : e.memory_type = MemoryType.RAM
    · by_cases hskip : (MemoryRegion.skip_up e.region K).1 = true
      · have hr2 : (MemoryRegion.skip_up (MemoryRegion.skip_up e.region K).2 R).1 = true :=
          hrinit e (by simp) hram hskip
        have hpe : processEntry (info, a) e =
            .ok (info, some (MemoryRegion.skip_up (MemoryRegion.skip_up e.region K).2 R).2) := by
          rw [processEntry_arena hram (by rw [hK]; exact hskip)]
          simp only [hK, hR]
          rw [pair_of_fst_true hr2]
        have hfe : freeEligibles K (e :: rest) = freeEligibles K rest := by
          rw [freeEligibles, if_neg (by simp [hskip])]
        have haf : arenaFold K R a (e :: rest) =
            arenaFold K R (some (MemoryRegion.skip_up (MemoryRegion.skip_up e.region K).2 R).2)
              rest := by
          rw [arenaFold, if_pos ⟨hram, hskip⟩]
        obtain ⟨info', h1, h2, h3, h4⟩ :=
          ih info (some (MemoryRegion.skip_up (MemoryRegion.skip_up e.region K).2 R).2) rs
            hK hR hpop (by rw [hfe] at hcap; exact hcap)
            (fun x hx => hrinit x (List.mem_cons_of_mem e hx))
        refine ⟨info', ?_, by rw [hfe]; exact h2, h3, h4⟩
        rw [processList, hpe, haf]
        exact h1
      · have hskipf : (MemoryRegion.skip_up e.region K).1 = false := by
          simpa using hskip
        have hfe : freeEligibles K (e :: rest) = e.region :: freeEligibles K rest := by
          rw [freeEligibles, if_pos ⟨hram, hskipf⟩]
        have hlt : rs.length < 16 := by
          rw [hfe] at hcap
          simp at hcap
          omega
        obtain ⟨info₁, hpeq, hpop₁, hk₁, hr₁⟩ := push_ok e.region hpop hlt
        have hpe : processEntry (info, a) e = .ok (info₁, a) := by
          rw [processEntry_free hram (by rw [hK]; exact hskipf), hpeq]
        have haf : arenaFold K R a (e :: rest) = arenaFold K R a rest := by
          rw [arenaFold, if_neg (by simp [hskipf])]
        obtain ⟨info', h1, h2, h3, h4⟩ :=
          ih info₁ a (rs ++ [e.region]) (by rw [hk₁]; exact hK) (by rw [hr₁]; exact hR)
            hpop₁ (by rw [hfe] at hcap; simp at hcap ⊢; omega)
            (fun x hx => hrinit x (List.mem_cons_of_mem e hx))
        refine ⟨info', ?_, by rw [hfe]; simpa using h2, h3, h4⟩
        rw [processList, hpe, haf]
        exact h1
    · have hpe : processEntry (info, a) e = .ok (info, a) := processEntry_not_ram hram
      have hfe : freeEligibles K (e :: rest) = freeEligibles K rest := by
        rw [freeEligibles, if_neg (by simp [hram])]
      have haf : arenaFold K R a (e :: rest) = arenaFold K R a rest := by
        rw [arenaFold, if_neg (by simp [hram])]
      obtain ⟨info', h1, h2, h3, h4⟩ :=
        ih info a rs hK hR hpop (by rw [hfe] at hcap; exact hcap)
          (fun x hx => hrinit x (List.mem_cons_of_mem e hx))
      refine ⟨info', ?_, by rw [hfe]; exact h2, h3, h4⟩
      rw [processList, hpe, haf]
      exact h1

theorem push_preserves {info info' : InitInfo} {r : MemoryRegion}
    (h : info.push_free_region r = .ok info') :
    info'.kernel_region = info.kernel_region ∧
    info'.rinit_region = info.rinit_region := by
  rw [InitInfo.push_free_region] at h
  split at h
  · cases h
    exact ⟨rfl, rfl⟩
  · cases h

theorem push_error {info : InitInfo} {r : MemoryRegion} {err : BootError}
    (h : info.push_free_region r = .error err) :
    err = BootError.capacityExceeded := by
  rw [InitInfo.push_free_region] at h
  split at h
  · cases h
  · cases h
    rfl

theorem processList_ok_inv (K R : MemoryRegion) (l : List MapEntry) :
    ∀ (info : InitInfo) (a : Option MemoryRegion) (rs : List MemoryRegion)
      (info' : InitInfo) (a' : Option MemoryRegion),
      info.kernel_region = K → info.rinit_region = R → Populated info rs →
      processList (info, a) l = .ok (info', a') →
      Populated info' (rs ++ freeEligibles K l) ∧ a' = arenaFold K R a l ∧
      info'.kernel_region = K ∧ info'.rinit_region = R := by
  induction l with
  | nil =>
    intro info a rs info' a' hK hR hpop h
    rw [processList] at h
    simp only [Except.ok.injEq, Prod.mk.injEq] at h
    obtain ⟨h1, h2⟩ := h
    subst h1
    subst h2
    exact ⟨by simpa [freeEligibles] using hpop, by rw [arenaFold], hK, hR⟩
  | cons e rest ih =>
    intro info a rs info' a' hK hR hpop h
    by_cases hram : e.memory_type = MemoryType.RAM
    · by_cases hskip : (MemoryRegion.skip_up e.region K).1 = true
      · have hfe : freeEligibles K (e :: rest) = freeEligibles K rest := by
          rw [freeEligibles, if_neg (by simp [hskip])]
        have hpe0 := @processEntry_arena (info, a) e hram (by rw [hK]; exact hskip)
        cases hr2 : (MemoryRegion.skip_up (MemoryRegion.skip_up e.region K).2 R).1 with
        | false =>
          rw [hK, hR, skip_up_of_false hr2] at hpe0
          rw [processList, hpe0] at h
          cases h
        | true =>
          rw [hK, hR, pair_of_fst_true hr2] at hpe0
          rw [processList, hpe0] at h
          have haf : arenaFold K R a (e :: rest) =
              arenaFold K R
                (some (MemoryRegion.skip_up (MemoryRegion.skip_up e.region K).2 R).2)
                rest := by
            rw [arenaFold, if_pos ⟨hram, hskip⟩]
          obtain ⟨g1, g2, g3, g4⟩ := ih info _ rs info' a' hK hR hpop h
          exact ⟨by rw [hfe]; exact g1, by rw [haf]; exact g2, g3, g4⟩
      · have hskipf : (MemoryRegion.skip_up e.region K).1 = false := by
          simpa using hskip
        have hfe : freeEligibles K (e :: rest) = e.region :: freeEligibles K rest := by
          rw [freeEligibles, if_pos ⟨hram, hskipf⟩]
        have haf : arenaFold K R a (e :: rest) = arenaFold K R a rest := by
          rw [arenaFold, if_neg (by simp [hskipf])]
        have hpe0 := @processEntry_free (info, a) e hram (by rw [hK]; exact hskipf)
        have hlt : rs.length < 16 := by
          rcases Nat.lt_or_ge rs.length 16 with hc | hc
          · exact hc
          · exfalso
            have h16 : info.free_regions_size = 16 := by
              have := hpop.2.1
              have := hpop.2.2
              omega
            rw [push_full e.region h16] at hpe0
            rw [processList, hpe0] at h
            cases h
        obtain ⟨info₁, hpeq, hpop₁, hk₁, hr₁⟩ := push_ok e.region hpop hlt
        rw [hpeq] at hpe0
        rw [processList, hpe0] at h
        obtain ⟨g1, g2, g3, g4⟩ :=
          ih info₁ a (rs ++ [e.region]) info' a' (by rw [hk₁]; exact hK)
            (by rw [hr₁]; exact hR) hpop₁ h
        refine ⟨by rw [hfe]; simpa using g1, by rw [haf]; exact g2, g3, g4⟩
    · have hpe : processEntry (info, a) e = .ok (info, a) := processEntry_not_ram hram
      have hfe : freeEligibles K (e :: rest) = freeEligibles K rest := by
        rw [freeEligibles, if_neg (by simp [hram])]
      have haf : arenaFold K R a (e :: rest) = arenaFold K R a rest := by
        rw [arenaFold, if_neg (by simp [hram])]
      rw [processList, hpe] at h
      obtain ⟨g1, g2, g3, g4⟩ := ih info a rs info' a' hK hR hpop h
      exact ⟨by rw [hfe]; exact g1, by rw [haf]; exact g2, g3, g4⟩

theorem processList_error_capacity (K R : MemoryRegion) (l : List MapEntry) :
    ∀ (info : InitInfo) (a : Option MemoryRegion) (err : BootError),
      info.kernel_region = K → info.rinit_region = R →
      (∀ e ∈ l, e.memory_type = MemoryType.RAM →
        (MemoryRegion.skip_up e.region K).1 = true →
        (MemoryRegion.skip_up (MemoryRegion.skip_up e.region K).2 R).1 = true) →
      processList (info, a) l = .error err → err = BootError.capacityExceeded := by
  induction l with
  | nil =>
    intro info a err _ _ _ h
    rw [processList] at h
    cases h
  | cons e rest ih =>
    intro info a err hK hR hrinit h
    by_cases hram : e.memory_type = MemoryType.RAM
    · by_cases hskip : (MemoryRegion.skip_up e.region K).1 = true
      · have hr2 := hrinit e (by simp) hram hskip
        have hpe0 := @processEntry_arena (info, a) e hram (by rw [hK]; exact hskip)
        rw [hK, hR, pair_of_fst_true hr2] at hpe0
        rw [processList, hpe0] at h
        exact ih info _ err hK hR (fun x hx => hrinit x (List.mem_cons_of_mem e hx)) h
      · have hskipf : (MemoryRegion.skip_up e.region K).1 = false := by
          simpa using hskip
        have hpe0 := @processEntry_free (info, a) e hram (by rw [hK]; exact hskipf)
        cases hpush : info.push_free_region e.region with
        | ok info₁ =>
          rw [hpush] at hpe0
          rw [processList, hpe0] at h
          obtain ⟨hk₁, hr₁⟩ := push_preserves hpush
          exact ih info₁ a err (by rw [hk₁]; exact hK) (by rw [hr₁]; exact hR)
            (fun x hx => hrinit x (List.mem_cons_of_mem e hx)) h
        | error e' =>
          rw [hpush] at hpe0
          rw [processList, hpe0] at h
          cases h
          exact push_error hpush
    · have hpe : processEntry (info, a) e = .ok (info, a) := processEntry_not_ram hram
      rw [processList, hpe] at h
      exact ih info a err hK hR (fun x hx => hrinit x (List.mem_cons_of_mem e hx)) h

theorem arenaFold_const (K R : MemoryRegion) (l : List MapEntry) :
    ∀ a, (∀ e ∈ l, e.memory_type = MemoryType.RAM →
      (MemoryRegion.skip_up e.region K).1 = false) →
    arenaFold K R a l = a := by
  induction l with
  | nil => intro a _; rfl
  | cons e rest ih =>
    intro a hall
    rw [arenaFold, if_neg]
    · exact ih a (fun x hx => hall x (List.mem_cons_of_mem e hx))
    · rintro ⟨h1, h2⟩
      rw [hall e (by simp) h1] at h2
      cases h2

theorem arenaFold_isSome (K R : MemoryRegion) (l : List MapEntry) :
    ∀ a : Option MemoryRegion,
      (a.isSome = true ∨ ∃ e ∈ l, e.memory_type = MemoryType.RAM ∧
        (MemoryRegion.skip_up e.region K).1 = true) →
      (arenaFold K R a l).isSome = true := by
  induction l with
  | nil =>
    intro a h
    rcases h with h | ⟨e, he, _⟩
    · exact h
    · cases he
  | cons e rest ih =>
    intro a h
    by_cases hc : e.memory_type = MemoryType.RAM ∧ (MemoryRegion.skip_up e.region K).1 = true
    · rw [arenaFold, if_pos hc]
      exact ih _ (Or.inl rfl)
    · rw [arenaFold, if_neg hc]
      apply ih a
      rcases h with h | ⟨e', he', hprop⟩
      · exact Or.inl h
      · rcases List.mem_cons.mp he' with rfl | hmem
        · exact absurd hprop hc
        · exact Or.inr ⟨e', hmem, hprop⟩

theorem processEntry_arena' {st : InitInfo × Option MemoryRegion} {e : MapEntry}
    {r' : MemoryRegion} (hram : e.memory_type = MemoryType.RAM)
    (hskip : MemoryRegion.skip_up e.region st.1.kernel_region = (true, r')) :
    processEntry st e =
      match MemoryRegion.skip_up r' st.1.rinit_region with
      | (true, cur'') => .ok (st.1, some cur'')
      | (false, _) => .error BootError.rinitNotAdjacent := by
  rw [processEntry, if_pos hram, hskip]

/-! ### Capacity boundary (C3) -/

/-- C3.  Building a topology from a map with exactly 16 eligible free
entries (RAM entries the kernel region does not subtract from) succeeds,
while 17 eligible free entries fail with the capacity error; and
`push_free_region` on an `InitInfo` already holding 16 free regions is the
distinguishable `capacityExceeded` failure — the bounds-checked store never
goes out of range. -/
theorem capacity_boundary :
    (∀ (K R : MemoryRegion) (memory_map : List MapEntry),
      (∀ e ∈ memory_map, e.memory_type = MemoryType.RAM →
        (MemoryRegion.skip_up e.region K).1 = true →
        (MemoryRegion.skip_up (MemoryRegion.skip_up e.region K).2 R).1 = true) →
      (freeEligibles K memory_map).length = 16 →
      (∃ e ∈ memory_map, e.memory_type = MemoryType.RAM ∧
        (MemoryRegion.skip_up e.region K).1 = true) →
      ∃ res, bootstrap_archinfo K R memory_map = .ok res) ∧
    (∀ (K R : MemoryRegion) (memory_map : List MapEntry),
      (∀ e ∈ memory_map, e.memory_type = MemoryType.RAM →
        (MemoryRegion.skip_up e.region K).1 = true →
        (MemoryRegion.skip_up (MemoryRegion.skip_up e.region K).2 R).1 = true) →
      17 ≤ (freeEligibles K memory_map).length →
      bootstrap_archinfo K R memory_map = .error BootError.capacityExceeded) ∧
    (∀ (info : InitInfo) (r : MemoryRegion), info.free_regions_size = 16 →
      info.push_free_region r = .error BootError.capacityExceeded) := by
  refine ⟨?_, ?_, fun info r h => push_full r h⟩
  · intro K R memory_map hrinit h16 hex
    obtain ⟨info', h1, _, _, _⟩ :=
      processList_ok K R memory_map (InitInfo.new K R) none [] rfl rfl
        (Populated_new K R) (by simp [h16]) hrinit
    have hsome : (arenaFold K R none memory_map).isSome = true :=
      arenaFold_isSome K R memory_map none (Or.inr hex)
    obtain ⟨m, hm⟩ := Option.isSome_iff_exists.mp hsome
    refine ⟨(info', m), ?_⟩
    rw [bootstrap_archinfo, h1, hm]
  · intro K R memory_map hrinit h17
    cases hres : processList (InitInfo.new K R, none) memory_map with
    | ok st' =>
      exfalso
      obtain ⟨info', a'⟩ := st'
      obtain ⟨⟨_, _, hlen⟩, _, _, _⟩ :=
        processList_ok_inv K R memory_map (InitInfo.new K R) none [] info' a'
          rfl rfl (Populated_new K R) hres
      simp at hlen
      omega
    | error err =>
      have herr : err = BootError.capacityExceeded :=
        processList_error_capacity K R memory_map (InitInfo.new K R) none err
          rfl rfl hrinit hres
      rw [bootstrap_archinfo, hres, herr]

/-- C3 witness: a concrete kernel/rinit layout, one arena-yielding RAM
entry, and 16 (respectively 17) further disjoint RAM entries; plus a full
`InitInfo` rejecting a push with the capacity error. -/
theorem capacity_boundary_witness :
    (∃ res, bootstrap_archinfo ⟨0x1000, 0x1000⟩ ⟨0x2000, 0x1000⟩
      (⟨0x1000, 0x10000, MemoryType.RAM⟩ ::
        [⟨0x100000, 0x1000, MemoryType.RAM⟩, ⟨0x101000, 0x1000, MemoryType.RAM⟩,
         ⟨0x102000, 0x1000, MemoryType.RAM⟩, ⟨0x103000, 0x1000, MemoryType.RAM⟩,
         ⟨0x104000, 0x1000, MemoryType.RAM⟩, ⟨0x105000, 0x1000, MemoryType.RAM⟩,
         ⟨0x106000, 0x1000, MemoryType.RAM⟩, ⟨0x107000, 0x1000, MemoryType.RAM⟩,
         ⟨0x108000, 0x1000, MemoryType.RAM⟩, ⟨0x109000, 0x1000, MemoryType.RAM⟩,
         ⟨0x10A000, 0x1000, MemoryType.RAM⟩, ⟨0x10B000, 0x1000, MemoryType.RAM⟩,
         ⟨0x10C000, 0x1000, MemoryType.RAM⟩, ⟨0x10D000, 0x1000, MemoryType.RAM⟩,
         ⟨0x10E000, 0x1000, MemoryType.RAM⟩, ⟨0x10F000, 0x1000, MemoryType.RAM⟩]) =
      .ok res) ∧
    bootstrap_archinfo ⟨0x1000, 0x1000⟩ ⟨0x2000, 0x1000⟩
      (⟨0x1000, 0x10000, MemoryType.RAM⟩ ::
        [⟨0x100000, 0x1000, MemoryType.RAM⟩, ⟨0x101000, 0x1000, MemoryType.RAM⟩,
         ⟨0x102000, 0x1000, MemoryType.RAM⟩, ⟨0x103000, 0x1000, MemoryType.RAM⟩,
         ⟨0x104000, 0x1000, MemoryType.RAM⟩, ⟨0x105000, 0x1000, MemoryType.RAM⟩,
         ⟨0x106000, 0x1000, MemoryType.RAM⟩, ⟨0x107000, 0x1000, MemoryType.RAM⟩,
         ⟨0x108000, 0x1000, MemoryType.RAM⟩, ⟨0x109000, 0x1000, MemoryType.RAM⟩,
         ⟨0x10A000, 0x1000, MemoryType.RAM⟩, ⟨0x10B000, 0x1000, MemoryType.RAM⟩,
         ⟨0x10C000, 0x1000, MemoryType.RAM⟩, ⟨0x10D000, 0x1000, MemoryType.RAM⟩,
         ⟨0x10E000, 0x1000, MemoryType.RAM⟩, ⟨0x10F000, 0x1000, MemoryType.RAM⟩,
         ⟨0x110000, 0x1000, MemoryType.RAM⟩]) =
      .error BootError.capacityExceeded ∧
    InitInfo.push_free_region
      ⟨16, List.replicate 16 (some ⟨0, 1⟩), ⟨0x2000, 0x1000⟩, ⟨0x1000, 0x1000⟩⟩
      ⟨0x5000, 0x1000⟩ = .error BootError.capacityExceeded :=
  ⟨capacity_boundary.1 _ _ _ (by decide) (by decide) (by decide),
   capacity_boundary.2.1 _ _ _ (by decide) (by decide),
   capacity_boundary.2.2 _ _ rfl⟩

/-! ### Missing allocation arena is fatal (C5) -/

/-- C5.  If no RAM-typed entry yields an allocation arena — the
kernel-region subtraction fails on every RAM entry — `bootstrap_archinfo`
ends in a fatal halt (the `unwrap` of the absent arena, or the capacity
panic if the free list overflows first) rather than returning a value. -/
theorem no_arena_fatal (K R : MemoryRegion) (memory_map : List MapEntry)
    (hnone : ∀ e ∈ memory_map, e.memory_type = MemoryType.RAM →
      (MemoryRegion.skip_up e.region K).1 = false) :
    bootstrap_archinfo K R memory_map = .error BootError.noAllocRegion ∨
    bootstrap_archinfo K R memory_map = .error BootError.capacityExceeded := by
  have hrinit : ∀ e ∈ memory_map, e.memory_type = MemoryType.RAM →
      (MemoryRegion.skip_up e.region K).1 = true →
      (MemoryRegion.skip_up (MemoryRegion.skip_up e.region K).2 R).1 = true := by
    intro e he hram htrue
    rw [hnone e he hram] at htrue
    cases htrue
  cases hres : processList (InitInfo.new K R, none) memory_map with
  | ok st' =>
    obtain ⟨info', a'⟩ := st'
    obtain ⟨_, g2, _, _⟩ :=
      processList_ok_inv K R memory_map (InitInfo.new K R) none [] info' a'
        rfl rfl (Populated_new K R) hres
    rw [arenaFold_const K R memory_map none hnone] at g2
    subst g2
    left
    rw [bootstrap_archinfo, hres]
  | error err =>
    right
    have herr := processList_error_capacity K R memory_map (InitInfo.new K R)
      none err rfl rfl hrinit hres
    rw [bootstrap_archinfo, hres, herr]

/-- C5 witness: a map whose only RAM entry lies far above the kernel region,
so no entry yields an arena and boot fails. -/
theorem no_arena_fatal_witness :
    bootstrap_archinfo ⟨0x1000, 0x1000⟩ ⟨0x2000, 0x1000⟩
      [⟨0, 0x500, MemoryType.other⟩, ⟨0x100000, 0x1000, MemoryType.RAM⟩] =
      .error BootError.noAllocRegion ∨
    bootstrap_archinfo ⟨0x1000, 0x1000⟩ ⟨0x2000, 0x1000⟩
      [⟨0, 0x500, MemoryType.other⟩, ⟨0x100000, 0x1000, MemoryType.RAM⟩] =
      .error BootError.capacityExceeded :=
  no_arena_fatal _ _ _ (by decide)

/-! ### Rinit subtraction step (C6) -/

/-- C6.  Whenever the kernel-region subtraction succeeds on a RAM entry, the
rinit-region subtraction is attempted on the remainder: its failure aborts
the boot with the `assert!` (`rinitNotAdjacent`), and on success the
resulting remainder is recorded as the allocation arena. -/
theorem rinit_step (st : InitInfo × Option MemoryRegion) (e : MapEntry)
    (r' : MemoryRegion) (hram : e.memory_type = MemoryType.RAM)
    (hskip : MemoryRegion.skip_up e.region st.1.kernel_region = (true, r')) :
    ((MemoryRegion.skip_up r' st.1.rinit_region).1 = false →
      processEntry st e = .error BootError.rinitNotAdjacent) ∧
    (∀ r'', MemoryRegion.skip_up r' st.1.rinit_region = (true, r'') →
      processEntry st e = .ok (st.1, some r'')) := by
  constructor
  · intro hf
    rw [processEntry_arena' hram hskip, skip_up_of_false hf]
  · intro r'' h2
    rw [processEntry_arena' hram hskip, h2]

/-- C6 witness: one RAM entry whose bottom holds the kernel image; with the
rinit region adjacent the step records the arena, with a distant rinit
region the step halts with the assertion failure. -/
theorem rinit_step_witness :
    processEntry (InitInfo.new ⟨0x1000, 0x1000⟩ ⟨0x2000, 0x1000⟩, none)
      ⟨0x1000, 0x10000, MemoryType.RAM⟩ =
      .ok (InitInfo.new ⟨0x1000, 0x1000⟩ ⟨0x2000, 0x1000⟩, some ⟨0x3000, 0xE000⟩) ∧
    processEntry (InitInfo.new ⟨0x1000, 0x1000⟩ ⟨0x8000, 0x1000⟩, none)
      ⟨0x1000, 0x10000, MemoryType.RAM⟩ = .error BootError.rinitNotAdjacent :=
  ⟨(rinit_step (InitInfo.new ⟨0x1000, 0x1000⟩ ⟨0x2000, 0x1000⟩, none)
      ⟨0x1000, 0x10000, MemoryType.RAM⟩ ⟨0x2000, 0xF000⟩ rfl (by decide)).2
      ⟨0x3000, 0xE000⟩ (by decide),
   (rinit_step (InitInfo.new ⟨0x1000, 0x1000⟩ ⟨0x8000, 0x1000⟩, none)
      ⟨0x1000, 0x10000, MemoryType.RAM⟩ ⟨0x2000, 0xF000⟩ rfl (by decide)).1
      (by decide)⟩

/-! ### Free-region iterator (C10) -/

theorem pushAll_ok (rs : List MemoryRegion) :
    ∀ (info : InitInfo) (rs₀ : List MemoryRegion), Populated info rs₀ →
      rs₀.length + rs.length ≤ 16 →
      ∃ info', pushAll info rs = .ok info' ∧ Populated info' (rs₀ ++ rs) := by
  induction rs with
  | nil =>
    intro info rs₀ hpop _
    exact ⟨info, rfl, by simpa using hpop⟩
  | cons r t ih =>
    intro info rs₀ hpop hle
    obtain ⟨info₁, hpeq, hpop₁, _, _⟩ := push_ok r hpop (by simp at hle; omega)
    obtain ⟨info', h1, h2⟩ := ih info₁ (rs₀ ++ [r]) hpop₁ (by simp at hle ⊢; omega)
    refine ⟨info', ?_, by simpa using h2⟩
    rw [pushAll, hpeq]
    exact h1

/-- C10.  An `InitInfo` built by `new` followed by `k ≤ 16` pushes has a
`free_regions()` iterator yielding exactly the pushed regions in push order;
in general the iterator yields the populated slots up to the first
unpopulated one — its output is exactly the leading run of `Some` slots. -/
theorem free_regions_iterator_spec :
    (∀ (K R : MemoryRegion) (rs : List MemoryRegion), rs.length ≤ 16 →
      ∃ info', pushAll (InitInfo.new K R) rs = .ok info' ∧
        info'.free_regions_iter = rs) ∧
    (∀ l : List (Option MemoryRegion),
      free_regions_list l = (l.takeWhile Option.isSome).filterMap id) := by
  constructor
  · intro K R rs hle
    obtain ⟨info', h1, h2⟩ :=
      pushAll_ok rs (InitInfo.new K R) [] (Populated_new K R) (by simpa using hle)
    exact ⟨info', h1, by rw [free_regions_iter_of_Populated h2]; simp⟩
  · intro l
    induction l with
    | nil => rfl
    | cons o t ih =>
      cases o with
      | none => simp [free_regions_list, List.takeWhile_cons]
      | some r => simpa [free_regions_list, List.takeWhile_cons] using ih

/-- C10 witness: three pushes onto a fresh `InitInfo` yield an iterator
producing exactly those three regions in order. -/
theorem free_regions_iterator_spec_witness :
    ∃ info', pushAll (InitInfo.new ⟨0, 1⟩ ⟨2, 1⟩) [⟨1, 2⟩, ⟨3, 4⟩, ⟨5, 6⟩] = .ok info' ∧
      info'.free_regions_iter = [⟨1, 2⟩, ⟨3, 4⟩, ⟨5, 6⟩] :=
  free_regions_iterator_spec.1 ⟨0, 1⟩ ⟨2, 1⟩ [⟨1, 2⟩, ⟨3, 4⟩, ⟨5, 6⟩] (by decide)

/-! ### Bring-up sequencing (C8) -/

/-- C8.  On the success path `kinit` performs its transitions strictly in
order and each exactly once — topology build, paging initialization
(consuming the arena), segmentation, interrupts, pushing the shrunk arena as
a free region — and ends by handing the finalized `InitInfo` (the bootstrap
result with the shrunk arena appended) to `kmain`; the hand-off is the last
event, with no step after it. -/
theorem kinit_sequence (K R : MemoryRegion) (memory_map : List MapEntry)
    (paging_consume : MemoryRegion → MemoryRegion)
    (info : InitInfo) (alloc : MemoryRegion) (info' : InitInfo)
    (hboot : bootstrap_archinfo K R memory_map = .ok (info, alloc))
    (hpush : info.push_free_region (paging_consume alloc) = .ok info') :
    kinit K R memory_map paging_consume =
      .ok ([BootEvent.topologyBuilt, BootEvent.pagingInit,
            BootEvent.segmentationInit, BootEvent.interruptInit,
            BootEvent.arenaPushed, BootEvent.handedOff], info') ∧
    (∀ ev : BootEvent,
      [BootEvent.topologyBuilt, BootEvent.pagingInit, BootEvent.segmentationInit,
       BootEvent.interruptInit, BootEvent.arenaPushed,
       BootEvent.handedOff].count ev = 1) ∧
    ([BootEvent.topologyBuilt, BootEvent.pagingInit, BootEvent.segmentationInit,
      BootEvent.interruptInit, BootEvent.arenaPushed,
      BootEvent.handedOff].getLast? = some BootEvent.handedOff) := by
  refine ⟨?_, fun ev => by cases ev <;> rfl, rfl⟩
  rw [kinit, hboot]
  simp only [hpush]
  rfl

/-- C8 witness: a concrete boot with one RAM entry and an identity paging
consumer runs the full ordered sequence and hands off the bootstrap result
with the arena appended. -/
theorem kinit_sequence_witness :
    kinit ⟨0x1000, 0x1000⟩ ⟨0x2000, 0x1000⟩ [⟨0x1000, 0x10000, MemoryType.RAM⟩] id =
      .ok ([BootEvent.topologyBuilt, BootEvent.pagingInit,
            BootEvent.segmentationInit, BootEvent.interruptInit,
            BootEvent.arenaPushed, BootEvent.handedOff],
           ⟨1, some ⟨0x3000, 0xE000⟩ :: List.replicate 15 none,
            ⟨0x2000, 0x1000⟩, ⟨0x1000, 0x1000⟩⟩) :=
  (kinit_sequence ⟨0x1000, 0x1000⟩ ⟨0x2000, 0x1000⟩ [⟨0x1000, 0x10000, MemoryType.RAM⟩]
    id (InitInfo.new ⟨0x1000, 0x1000⟩ ⟨0x2000, 0x1000⟩) ⟨0x3000, 0xE000⟩
    ⟨1, some ⟨0x3000, 0xE000⟩ :: List.replicate 15 none,
     ⟨0x2000, 0x1000⟩, ⟨0x1000, 0x1000⟩⟩ rfl rfl).1

/-! ### Topology coverage (C4): interval helpers -/

theorem disjointWith_iff (r s : MemoryRegion) :
    r.disjointWith s ↔ ∀ a, ¬ (r.contains a ∧ s.contains a) := by
  unfold MemoryRegion.disjointWith MemoryRegion.contains
  constructor
  · intro h a ⟨h1, h2⟩
    omega
  · intro h
    by_contra hne
    push_neg at hne
    exact h (max r.base s.base) ⟨⟨by omega, by omega⟩, ⟨by omega, by omega⟩⟩

theorem disjointWith_symm {r s : MemoryRegion} (h : r.disjointWith s) :
    s.disjointWith r := by
  unfold MemoryRegion.disjointWith at h ⊢
  omega

theorem skip_fail_of_disjoint {x K : MemoryRegion} (hx : 0 < x.length)
    (hK : 0 < K.length) (h : x.disjointWith K) :
    (MemoryRegion.skip_up x K).1 = false := by
  rw [MemoryRegion.skip_up, if_neg]
  unfold MemoryRegion.disjointWith at h
  unfold MemoryRegion.endAddr
  omega

theorem skip_exact {K R : MemoryRegion} {e : MapEntry} (hex : exactCover K R e)
    (hK : 0 < K.length) (hR : 0 < R.length) :
    MemoryRegion.skip_up e.region K = (true, ⟨K.base + K.length, e.length - K.length⟩) ∧
    MemoryRegion.skip_up ⟨K.base + K.length, e.length - K.length⟩ R =
      (true, ⟨R.base + R.length, e.length - (K.length + R.length)⟩) := by
  obtain ⟨h1, h2, h3⟩ := hex
  constructor
  · rw [MemoryRegion.skip_up,
      if_pos (by simp [MapEntry.region, MemoryRegion.endAddr]; omega)]
    simp [MapEntry.region, MemoryRegion.endAddr]
    constructor <;> omega
  · rw [MemoryRegion.skip_up, if_pos (by simp [MemoryRegion.endAddr]; omega)]
    simp [MemoryRegion.endAddr]
    constructor <;> omega

theorem exact_partition {K R : MemoryRegion} {e : MapEntry} (hex : exactCover K R e)
    (hK : 0 < K.length) (hR : 0 < R.length) (x : Nat) :
    e.region.contains x ↔
      (K.contains x ∨ R.contains x ∨
        (MemoryRegion.mk (R.base + R.length) (e.length - (K.length + R.length))).contains x) := by
  obtain ⟨h1, h2, h3⟩ := hex
  unfold MemoryRegion.contains MapEntry.region
  simp only
  omega

theorem mem_freeEligibles {K : MemoryRegion} {r : MemoryRegion} :
    ∀ {l : List MapEntry}, r ∈ freeEligibles K l ↔
      ∃ e ∈ l, e.memory_type = MemoryType.RAM ∧
        (MemoryRegion.skip_up e.region K).1 = false ∧ r = e.region := by
  intro l
  induction l with
  | nil => simp [freeEligibles]
  | cons e rest ih =>
    by_cases hc : e.memory_type = MemoryType.RAM ∧
        (MemoryRegion.skip_up e.region K).1 = false
    · rw [freeEligibles, if_pos hc]
      simp only [List.mem_cons, ih]
      constructor
      · rintro (rfl | ⟨e', he', hprop⟩)
        · exact ⟨e, Or.inl rfl, hc.1, hc.2, rfl⟩
        · exact ⟨e', Or.inr he', hprop⟩
      · rintro ⟨e', (rfl | he'), hram, hskip, rfl⟩
        · exact Or.inl rfl
        · exact Or.inr ⟨e', he', hram, hskip, rfl⟩
    · rw [freeEligibles, if_neg hc]
      rw [ih]
      constructor
      · rintro ⟨e', he', hprop⟩
        exact ⟨e', List.mem_cons_of_mem e he', hprop⟩
      · rintro ⟨e', he', hram, hskip, rfl⟩
        rcases List.mem_cons.mp he' with rfl | hmem
        · exact absurd ⟨hram, hskip⟩ hc
        · exact ⟨e', hmem, hram, hskip, rfl⟩

theorem arenaFold_some {K R : MemoryRegion} :
    ∀ {l : List MapEntry} {a : Option MemoryRegion} {m : MemoryRegion},
      arenaFold K R a l = some m →
      (∃ e ∈ l, e.memory_type = MemoryType.RAM ∧
        (MemoryRegion.skip_up e.region K).1 = true ∧
        m = (MemoryRegion.skip_up (MemoryRegion.skip_up e.region K).2 R).2) ∨
      a = some m := by
  intro l
  induction l with
  | nil =>
    intro a m h
    exact Or.inr h
  | cons e rest ih =>
    intro a m h
    by_cases hc : e.memory_type = MemoryType.RAM ∧
        (MemoryRegion.skip_up e.region K).1 = true
    · rw [arenaFold, if_pos hc] at h
      rcases ih h with ⟨e', he', hprop⟩ | heq
      · exact Or.inl ⟨e', List.mem_cons_of_mem e he', hprop⟩
      · refine Or.inl ⟨e, List.mem_cons_self e rest, hc.1, hc.2, ?_⟩
        exact (Option.some.inj heq).symm
    · rw [arenaFold, if_neg hc] at h
      rcases ih h with ⟨e', he', hprop⟩ | heq
      · exact Or.inl ⟨e', List.mem_cons_of_mem e he', hprop⟩
      · exact Or.inr heq

theorem eq_of_pairwise {α : Type} {rel : α → α → Prop} :
    ∀ {l : List α} {a b : α}, l.Pairwise rel → a ∈ l → b ∈ l →
      ¬ rel a b → ¬ rel b a → a = b := by
  intro l
  induction l with
  | nil =>
    intro a b _ ha _ _ _
    cases ha
  | cons x t ih =>
    intro a b hpw ha hb hab hba
    obtain ⟨hhead, htail⟩ := List.pairwise_cons.mp hpw
    rcases List.mem_cons.mp ha with rfl | ha' <;>
      rcases List.mem_cons.mp hb with rfl | hb'
    · rfl
    · exact absurd (hhead b hb') hab
    · exact absurd (hhead a ha') hba
    · exact ih htail ha' hb' hab hba

theorem pairwise_freeEligibles {K : MemoryRegion} :
    ∀ {l : List MapEntry},
      l.Pairwise (fun e₁ e₂ => e₁.memory_type = MemoryType.RAM →
        e₂.memory_type = MemoryType.RAM →
        MemoryRegion.disjointWith e₁.region e₂.region) →
      (freeEligibles K l).Pairwise MemoryRegion.disjointWith := by
  intro l
  induction l with
  | nil =>
    intro _
    exact List.Pairwise.nil
  | cons e rest ih =>
    intro hpw
    obtain ⟨hhead, htail⟩ := List.pairwise_cons.mp hpw
    by_cases hc : e.memory_type = MemoryType.RAM ∧
        (MemoryRegion.skip_up e.region K).1 = false
    · rw [freeEligibles, if_pos hc]
      refine List.pairwise_cons.mpr ⟨?_, ih htail⟩
      intro r hr
      obtain ⟨e', he', hram', _, rfl⟩ := mem_freeEligibles.mp hr
      exact hhead e' he' hc.1 hram'
    · rw [freeEligibles, if_neg hc]
      exact ih htail

/-- C4 counterexample: with kernel `{0x100000, 0x200000}` and rinit
`{0x300000, 0x10000}`, the map `[{0x200000, 0x200000, RAM}]` builds
successfully (the kernel region covers the entry's bottom, so the entry
becomes the arena), yet the produced kernel region contains address
`0x100000`, which lies in no RAM-typed input entry — the union of the
outputs strictly exceeds the union of the RAM entries, refuting the claimed
equality. -/
theorem topology_coverage_counterexample :
    bootstrap_archinfo ⟨0x100000, 0x200000⟩ ⟨0x300000, 0x10000⟩
      [⟨0x200000, 0x200000, MemoryType.RAM⟩] =
      .ok (InitInfo.new ⟨0x100000, 0x200000⟩ ⟨0x300000, 0x10000⟩,
        ⟨0x310000, 0xF0000⟩) ∧
    MemoryRegion.contains ⟨0x100000, 0x200000⟩ 0x100000 ∧
    ¬ (∃ e ∈ [(⟨0x200000, 0x200000, MemoryType.RAM⟩ : MapEntry)],
        e.memory_type = MemoryType.RAM ∧ e.region.contains 0x100000) :=
  ⟨rfl, by decide, by decide⟩

/-- C4 (amended).  For maps whose RAM entries are nonempty and pairwise
non-overlapping, and where every RAM entry either does not overlap the
kernel or rinit region at all, or contains the kernel image bottom-aligned
with the rinit image immediately above it, a successful build produces free
regions, kernel region, rinit region and allocation arena whose union is
exactly the union of the RAM-typed input entries, pairwise
non-overlapping. -/
theorem topology_coverage (K R : MemoryRegion) (memory_map : List MapEntry)
    (info : InitInfo) (arena : MemoryRegion)
    (hK : 0 < K.length) (hR : 0 < R.length)
    (hclass : ∀ e ∈ memory_map, e.memory_type = MemoryType.RAM → 0 < e.length ∧
      ((MemoryRegion.disjointWith e.region K ∧ MemoryRegion.disjointWith e.region R) ∨
        exactCover K R e))
    (hpair : memory_map.Pairwise (fun e₁ e₂ => e₁.memory_type = MemoryType.RAM →
      e₂.memory_type = MemoryType.RAM →
      MemoryRegion.disjointWith e₁.region e₂.region))
    (hok : bootstrap_archinfo K R memory_map = .ok (info, arena)) :
    (∀ x, ((∃ r ∈ info.free_regions_iter, r.contains x) ∨ K.contains x ∨
        R.contains x ∨ arena.contains x) ↔
      (∃ e ∈ memory_map, e.memory_type = MemoryType.RAM ∧ e.region.contains x)) ∧
    (info.free_regions_iter ++ [K, R, arena]).Pairwise MemoryRegion.disjointWith := by
  rw [bootstrap_archinfo] at hok
  cases hres : processList (InitInfo.new K R, none) memory_map with
  | error err =>
    rw [hres] at hok
    cases hok
  | ok st =>
    obtain ⟨info₀, a₀⟩ := st
    rw [hres] at hok
    cases a₀ with
    | none => cases hok
    | some m =>
      simp only [Except.ok.injEq, Prod.mk.injEq] at hok
      obtain ⟨rfl, rfl⟩ := hok
      obtain ⟨hpop', harena, hkinfo, hrinfo⟩ :=
        processList_ok_inv K R memory_map (InitInfo.new K R) none [] info₀
          (some m) rfl rfl (Populated_new K R) hres
      have hfree_iter : info₀.free_regions_iter = freeEligibles K memory_map := by
        rw [free_regions_iter_of_Populated hpop']
        simp
      rcases arenaFold_some harena.symm with
        ⟨estar, hestar_mem, hram_star, hskip_star, harena_val⟩ | hnone
      · obtain ⟨hlen_star, hcases⟩ := hclass estar hestar_mem hram_star
        have hex_star : exactCover K R estar := by
          rcases hcases with ⟨hd1, _⟩ | hx
          · have hf := skip_fail_of_disjoint hlen_star hK hd1
            rw [hf] at hskip_star
            cases hskip_star
          · exact hx
        obtain ⟨hs1, hs2⟩ := skip_exact hex_star hK hR
        have harena_eq : m = ⟨R.base + R.length, estar.length - (K.length + R.length)⟩ := by
          rw [harena_val]
          simp only [hs1]
          simp only [hs2]
        subst harena_eq
        constructor
        · intro x
          constructor
          · rintro (⟨r, hrmem, hrx⟩ | hx | hx | hx)
            · rw [hfree_iter] at hrmem
              obtain ⟨e, he, hram, _, rfl⟩ := mem_freeEligibles.mp hrmem
              exact ⟨e, he, hram, hrx⟩
            · exact ⟨estar, hestar_mem, hram_star,
                (exact_partition hex_star hK hR x).mpr (Or.inl hx)⟩
            · exact ⟨estar, hestar_mem, hram_star,
                (exact_partition hex_star hK hR x).mpr (Or.inr (Or.inl hx))⟩
            · exact ⟨estar, hestar_mem, hram_star,
                (exact_partition hex_star hK hR x).mpr (Or.inr (Or.inr hx))⟩
          · rintro ⟨e, he, hram, hex⟩
            obtain ⟨hlen_e, hcs⟩ := hclass e he hram
            rcases hcs with ⟨hd1, _⟩ | hxc
            · left
              refine ⟨e.region, ?_, hex⟩
              rw [hfree_iter]
              exact mem_freeEligibles.mpr
                ⟨e, he, hram, skip_fail_of_disjoint hlen_e hK hd1, rfl⟩
            · have hee : e = estar := by
                by_contra hne
                have hcont_e : e.region.contains K.base := by
                  obtain ⟨a1, a2, a3⟩ := hxc
                  unfold MemoryRegion.contains MapEntry.region
                  simp only
                  omega
                have hcont_star : estar.region.contains K.base := by
                  obtain ⟨a1, a2, a3⟩ := hex_star
                  unfold MemoryRegion.contains MapEntry.region
                  simp only
                  omega
                have hnd : ¬ MemoryRegion.disjointWith e.region estar.region :=
                  fun hd => (disjointWith_iff _ _).mp hd K.base ⟨hcont_e, hcont_star⟩
                have hnd' : ¬ MemoryRegion.disjointWith estar.region e.region :=
                  fun hd => hnd (disjointWith_symm hd)
                exact hne (eq_of_pairwise hpair he hestar_mem
                  (fun hrel => hnd (hrel hram hram_star))
                  (fun hrel => hnd' (hrel hram_star hram)))
              subst hee
              rcases (exact_partition hex_star hK hR x).mp hex with h | h | h
              · exact Or.inr (Or.inl h)
              · exact Or.inr (Or.inr (Or.inl h))
              · exact Or.inr (Or.inr (Or.inr h))
        · rw [hfree_iter]
          apply List.pairwise_append.mpr
          refine ⟨pairwise_freeEligibles hpair, ?_, ?_⟩
          · obtain ⟨a1, a2, a3⟩ := hex_star
            refine List.pairwise_cons.mpr ⟨?_, List.pairwise_cons.mpr
              ⟨?_, List.pairwise_cons.mpr ⟨by simp, List.Pairwise.nil⟩⟩⟩
            · intro s hs
              rcases List.mem_cons.mp hs with rfl | hs2
              · unfold MemoryRegion.disjointWith
                omega
              · rcases List.mem_cons.mp hs2 with rfl | hs3
                · unfold MemoryRegion.disjointWith
                  simp only
                  omega
                · cases hs3
            · intro s hs
              rcases List.mem_cons.mp hs with rfl | hs2
              · unfold MemoryRegion.disjointWith
                simp only
                omega
              · cases hs2
          · intro r hr s hs
            obtain ⟨e, he, hram, hskipf, rfl⟩ := mem_freeEligibles.mp hr
            obtain ⟨hlen_e, hcs⟩ := hclass e he hram
            have hdisj : MemoryRegion.disjointWith e.region K ∧
                MemoryRegion.disjointWith e.region R := by
              rcases hcs with h | hxc
              · exact h
              · exfalso
                have := (skip_exact hxc hK hR).1
                rw [this] at hskipf
                cases hskipf
            rcases List.mem_cons.mp hs with rfl | hs2
            · exact hdisj.1
            · rcases List.mem_cons.mp hs2 with rfl | hs3
              · exact hdisj.2
              · rcases List.mem_cons.mp hs3 with rfl | hs4
                · have hnd_or : MemoryRegion.disjointWith e.region estar.region := by
                    by_cases heq : e = estar
                    · exfalso
                      subst heq
                      have hcont : e.region.contains K.base := by
                        obtain ⟨a1, a2, a3⟩ := hex_star
                        unfold MemoryRegion.contains MapEntry.region
                        simp only
                        omega
                      exact (disjointWith_iff _ _).mp hdisj.1 K.base
                        ⟨hcont, le_refl _, by omega⟩
                    · by_contra hno
                      rcases (em (MemoryRegion.disjointWith e.region estar.region)) with
                        hyes | hmm
                      · exact hno hyes
                      · exact heq (eq_of_pairwise hpair he hestar_mem
                          (fun hrel => hmm (hrel hram hram_star))
                          (fun hrel => hmm (disjointWith_symm (hrel hram_star hram))))
                  apply (disjointWith_iff _ _).mpr
                  intro xx hxx
                  have hstar_cont : estar.region.contains xx :=
                    (exact_partition hex_star hK hR xx).mpr (Or.inr (Or.inr hxx.2))
                  exact (disjointWith_iff _ _).mp hnd_or xx ⟨hxx.1, hstar_cont⟩
                · cases hs4
      · cases hnone

/-- C4 witness: the spec's end-to-end layout (kernel at the bottom of a RAM
entry with rinit immediately above) plus one disjoint RAM entry satisfies
the amended hypotheses, and the amended conclusions hold for the computed
topology. -/
theorem topology_coverage_witness :
    (∀ x, ((∃ r ∈ (InitInfo.mk 1 (some ⟨0x2000000, 0x100000⟩ :: List.replicate 15 none)
            ⟨0x300000, 0x10000⟩ ⟨0x100000, 0x200000⟩).free_regions_iter,
          r.contains x) ∨
        MemoryRegion.contains ⟨0x100000, 0x200000⟩ x ∨
        MemoryRegion.contains ⟨0x300000, 0x10000⟩ x ∨
        MemoryRegion.contains ⟨0x310000, 0xDF0000⟩ x) ↔
      (∃ e ∈ [(⟨0x100000, 0x1000000, MemoryType.RAM⟩ : MapEntry),
              ⟨0x2000000, 0x100000, MemoryType.RAM⟩],
        e.memory_type = MemoryType.RAM ∧ e.region.contains x)) ∧
    ((InitInfo.mk 1 (some ⟨0x2000000, 0x100000⟩ :: List.replicate 15 none)
        ⟨0x300000, 0x10000⟩ ⟨0x100000, 0x200000⟩).free_regions_iter ++
      ([⟨0x100000, 0x200000⟩, ⟨0x300000, 0x10000⟩,
        ⟨0x310000, 0xDF0000⟩] : List MemoryRegion)).Pairwise
      MemoryRegion.disjointWith :=
  topology_coverage ⟨0x100000, 0x200000⟩ ⟨0x300000, 0x10000⟩
    [⟨0x100000, 0x1000000, MemoryType.RAM⟩, ⟨0x2000000, 0x100000, MemoryType.RAM⟩]
    (InitInfo.mk 1 (some ⟨0x2000000, 0x100000⟩ :: List.replicate 15 none)
      ⟨0x300000, 0x10000⟩ ⟨0x100000, 0x200000⟩)
    ⟨0x310000, 0xDF0000⟩ (by decide) (by decide) (by decide) (by decide) rfl

end Rux
